import Mathlib

/-!
Verification of the HFT ticker-analysis pipeline core.

Shallow embedding of the repository's components:
* `EMACalculator` (src/src/EMACalculator.cpp) — time-gated exponential moving
  averages.  C++ `double` values are modelled as `ℚ`; `system_clock`
  time points and `chrono` durations are modelled as `ℤ` in a uniform tick
  unit (the gate comparison `now - last_update >= interval` is unit-uniform).
* `LockFreeRingBuffer` (src/include/LockFreeRingBuffer.h) — bounded SPSC ring
  of compile-time size `2^k`; `size_t` indices are kept below `2^k` exactly as
  the source masks them, and the unsigned wrap of `tail - head` in `size()` is
  modelled by arithmetic modulo `2^64` before the mask.
* `TickerData` (src/include/TickerData.h, src/src/TickerData.cpp) — the record
  plus its CSV serializer `toCSV`, and the asynchronous variant
  `AsyncCSVLogger::formatToCSV` / `escapeCSVField` (src/src/AsyncCSVLogger.cpp).
* `CSVLogger` (src/src/CSVLogger.cpp) — header-then-rows file logger; the file
  is modelled as the list of its lines, append-mode open preserves them.
-/

namespace HFT

/-! ## EMACalculator (src/src/EMACalculator.cpp) -/

/-- State of an `EMACalculator` object: `m_interval`, `m_alpha`, the two EMA
values, the two initialization flags and the two last-update time points. -/
structure EMACalculator where
  interval : ℤ
  alpha : ℚ
  priceEMA : ℚ
  midPriceEMA : ℚ
  priceInitialized : Bool
  midPriceInitialized : Bool
  priceLastUpdate : ℤ
  midPriceLastUpdate : ℤ
  deriving Repr, DecidableEq

/-- `EMACalculator::calculateAlpha`: `2.0 / (intervalSeconds + 1.0)`. -/
def calculateAlpha (intervalSeconds : ℤ) : ℚ :=
  2 / ((intervalSeconds : ℚ) + 1)

/-- The `EMACalculator(int intervalSeconds)` constructor: EMA values start at
`0.0`, both flags start `false`, `m_alpha = calculateAlpha(intervalSeconds)`.
The default-constructed `time_point` members start at the clock epoch `0`. -/
def EMACalculator.construct (intervalSeconds : ℤ) : EMACalculator :=
  { interval := intervalSeconds
    alpha := calculateAlpha intervalSeconds
    priceEMA := 0
    midPriceEMA := 0
    priceInitialized := false
    midPriceInitialized := false
    priceLastUpdate := 0
    midPriceLastUpdate := 0 }

/-- `EMACalculator::shouldUpdatePrice`. -/
def EMACalculator.shouldUpdatePrice (c : EMACalculator) (currentTime : ℤ) : Bool :=
  if c.priceInitialized = false then true
  else decide (c.interval ≤ currentTime - c.priceLastUpdate)

/-- `EMACalculator::shouldUpdateMidPrice`. -/
def EMACalculator.shouldUpdateMidPrice (c : EMACalculator) (currentTime : ℤ) : Bool :=
  if c.midPriceInitialized = false then true
  else decide (c.interval ≤ currentTime - c.midPriceLastUpdate)

/-- `EMACalculator::updatePriceEMA`: returns the value returned to the caller
together with the post-call object state. -/
def EMACalculator.updatePriceEMA (c : EMACalculator) (price : ℚ) (currentTime : ℤ) :
    ℚ × EMACalculator :=
  if c.shouldUpdatePrice currentTime = false then (c.priceEMA, c)
  else if c.priceInitialized = false then
    let c' : EMACalculator :=
      { c with priceEMA := price, priceInitialized := true, priceLastUpdate := currentTime }
    (c'.priceEMA, c')
  else
    let newEMA : ℚ := c.alpha * price + (1 - c.alpha) * c.priceEMA
    let c' : EMACalculator := { c with priceEMA := newEMA, priceLastUpdate := currentTime }
    (c'.priceEMA, c')

/-- `EMACalculator::updateMidPriceEMA`. -/
def EMACalculator.updateMidPriceEMA (c : EMACalculator) (midPrice : ℚ) (currentTime : ℤ) :
    ℚ × EMACalculator :=
  if c.shouldUpdateMidPrice currentTime = false then (c.midPriceEMA, c)
  else if c.midPriceInitialized = false then
    let c' : EMACalculator :=
      { c with midPriceEMA := midPrice, midPriceInitialized := true,
               midPriceLastUpdate := currentTime }
    (c'.midPriceEMA, c')
  else
    let newEMA : ℚ := c.alpha * midPrice + (1 - c.alpha) * c.midPriceEMA
    let c' : EMACalculator :=
      { c with midPriceEMA := newEMA, midPriceLastUpdate := currentTime }
    (c'.midPriceEMA, c')

/-- `EMACalculator::getPriceEMA`. -/
def EMACalculator.getPriceEMA (c : EMACalculator) : ℚ := c.priceEMA

/-- `EMACalculator::getMidPriceEMA`. -/
def EMACalculator.getMidPriceEMA (c : EMACalculator) : ℚ := c.midPriceEMA

/-- `EMACalculator::reset`: zero both EMA values and clear both flags; the
last-update time points are not touched. -/
def EMACalculator.reset (c : EMACalculator) : EMACalculator :=
  { c with priceEMA := 0, midPriceEMA := 0,
           priceInitialized := false, midPriceInitialized := false }

/-- `EMACalculator::isPriceInitialized`. -/
def EMACalculator.isPriceInitialized (c : EMACalculator) : Bool := c.priceInitialized

/-- `EMACalculator::isMidPriceInitialized`. -/
def EMACalculator.isMidPriceInitialized (c : EMACalculator) : Bool := c.midPriceInitialized

/-- One externally invokable mutating call on an `EMACalculator`. -/
inductive EMAOp where
  | updPrice (price : ℚ) (t : ℤ)
  | updMid (midPrice : ℚ) (t : ℤ)
  | resetCall
  deriving Repr, DecidableEq

/-- Apply one call, keeping only the state (return values are dropped). -/
def EMACalculator.applyOp (c : EMACalculator) : EMAOp → EMACalculator
  | .updPrice p t => (c.updatePriceEMA p t).2
  | .updMid p t => (c.updateMidPriceEMA p t).2
  | .resetCall => c.reset

/-- Run a sequence of calls from a given state. -/
def EMACalculator.runOps (c : EMACalculator) (ops : List EMAOp) : EMACalculator :=
  ops.foldl EMACalculator.applyOp c


/-! ## EMA invariants along executions -/

/-- `applyOp` never changes `m_interval` or `m_alpha`. -/
theorem EMACalculator.applyOp_interval_alpha (c : EMACalculator) (op : EMAOp) :
    (c.applyOp op).interval = c.interval ∧ (c.applyOp op).alpha = c.alpha := by
  cases op <;>
    simp only [applyOp, updatePriceEMA, updateMidPriceEMA, reset] <;>
    (try split_ifs) <;> simp

/-- `runOps` never changes `m_interval` or `m_alpha`. -/
theorem EMACalculator.runOps_interval_alpha (c : EMACalculator) (ops : List EMAOp) :
    (c.runOps ops).interval = c.interval ∧ (c.runOps ops).alpha = c.alpha := by
  induction ops generalizing c with
  | nil => exact ⟨rfl, rfl⟩
  | cons op ops ih =>
    have h := EMACalculator.applyOp_interval_alpha c op
    have h' := ih (c.applyOp op)
    simp only [runOps] at h' ⊢
    exact ⟨h'.1.trans h.1, h'.2.trans h.2⟩


/-- The gate checks of the two EMAs depend only on the flag, the interval and
the matching last-update field. -/
theorem EMACalculator.shouldUpdatePrice_of_initialized (c : EMACalculator) (t : ℤ)
    (h : c.priceInitialized = true) :
    c.shouldUpdatePrice t = decide (c.interval ≤ t - c.priceLastUpdate) := by
  simp [shouldUpdatePrice, h]

/-- Claim C1: once an EMA is initialized with `last_update = t₀`, an update at
`t` with `t − t₀ < interval` returns the pre-call value and leaves the whole
state unchanged, while an update with `t − t₀ ≥ interval` applies the
recurrence and stamps `last_update = t` — for each of the two EMAs. -/
theorem ema_time_gate (c : EMACalculator) (s s' : ℚ) (t0 u0 t u : ℤ)
    (hpi : c.priceInitialized = true) (hpl : c.priceLastUpdate = t0)
    (hmi : c.midPriceInitialized = true) (hml : c.midPriceLastUpdate = u0) :
    (t - t0 < c.interval → c.updatePriceEMA s t = (c.priceEMA, c)) ∧
    (c.interval ≤ t - t0 →
      (c.updatePriceEMA s t).2 =
        { c with priceEMA := c.alpha * s + (1 - c.alpha) * c.priceEMA,
                 priceLastUpdate := t }) ∧
    (u - u0 < c.interval → c.updateMidPriceEMA s' u = (c.midPriceEMA, c)) ∧
    (c.interval ≤ u - u0 →
      (c.updateMidPriceEMA s' u).2 =
        { c with midPriceEMA := c.alpha * s' + (1 - c.alpha) * c.midPriceEMA,
                 midPriceLastUpdate := u }) := by
  subst hpl hml
  refine ⟨fun hlt => ?_, fun hge => ?_, fun hlt => ?_, fun hge => ?_⟩
  · simp [EMACalculator.updatePriceEMA, EMACalculator.shouldUpdatePrice, hpi,
          not_le.mpr hlt]
  · simp [EMACalculator.updatePriceEMA, EMACalculator.shouldUpdatePrice, hpi, hge]
  · simp [EMACalculator.updateMidPriceEMA, EMACalculator.shouldUpdateMidPrice, hmi,
          not_le.mpr hlt]
  · simp [EMACalculator.updateMidPriceEMA, EMACalculator.shouldUpdateMidPrice, hmi, hge]

/-- Witness for C1 at a concrete initialized calculator. -/
theorem ema_time_gate_witness :
    ((12 : ℤ) - 10 < (5 : ℤ)) ∧
    EMACalculator.updatePriceEMA ⟨5, 1/3, 100, 200, true, true, 10, 20⟩ 7 12 =
      (100, ⟨5, 1/3, 100, 200, true, true, 10, 20⟩) ∧
    ((5 : ℤ) ≤ (26 : ℤ) - 20) ∧
    (EMACalculator.updateMidPriceEMA ⟨5, 1/3, 100, 200, true, true, 10, 20⟩ 8 26).2 =
      ⟨5, 1/3, 100, 1/3 * 8 + (1 - 1/3) * 200, true, true, 10, 26⟩ := by
  have h := ema_time_gate ⟨5, 1/3, 100, 200, true, true, 10, 20⟩ 7 8 10 20 12 26
    rfl rfl rfl rfl
  exact ⟨by decide, h.1 (by decide), by decide, h.2.2.2 (by decide)⟩

/-- Claim C6: the first update of an uninitialized EMA returns the sample
itself and initializes the EMA with `value = s`, `last_update = t` — for each
of the two EMAs. -/
theorem ema_first_sample (c : EMACalculator) (s s' : ℚ) (t u : ℤ)
    (hp : c.priceInitialized = false) (hm : c.midPriceInitialized = false) :
    c.updatePriceEMA s t =
      (s, { c with priceEMA := s, priceInitialized := true, priceLastUpdate := t }) ∧
    c.updateMidPriceEMA s' u =
      (s', { c with midPriceEMA := s', midPriceInitialized := true,
                    midPriceLastUpdate := u }) := by
  constructor <;>
    simp [EMACalculator.updatePriceEMA, EMACalculator.updateMidPriceEMA,
          EMACalculator.shouldUpdatePrice, EMACalculator.shouldUpdateMidPrice, hp, hm]

/-- Witness for C6 on a freshly constructed calculator. -/
theorem ema_first_sample_witness :
    (EMACalculator.construct 5).priceInitialized = false ∧
    EMACalculator.updatePriceEMA (EMACalculator.construct 5) 42 9 =
      (42, { EMACalculator.construct 5 with
               priceEMA := 42, priceInitialized := true, priceLastUpdate := 9 }) := by
  have h := ema_first_sample (EMACalculator.construct 5) 42 13 9 3 rfl rfl
  exact ⟨rfl, h.1⟩


/-- Claim C5: on any state reached from construction, an update that passes
the time gate on an already-initialized EMA sets the value by the recurrence
with `α = 2 / (intervalSeconds + 1)` fixed at construction, and stamps
`last_update` with the supplied time — for each of the two EMAs. -/
theorem ema_recurrence (intervalSeconds : ℤ) (ops : List EMAOp) (c : EMACalculator)
    (hc : c = (EMACalculator.construct intervalSeconds).runOps ops)
    (s s' : ℚ) (t u : ℤ) :
    c.alpha = 2 / ((intervalSeconds : ℚ) + 1) ∧
    (c.priceInitialized = true → c.interval ≤ t - c.priceLastUpdate →
      (c.updatePriceEMA s t).2.priceEMA =
        2 / ((intervalSeconds : ℚ) + 1) * s +
          (1 - 2 / ((intervalSeconds : ℚ) + 1)) * c.priceEMA ∧
      (c.updatePriceEMA s t).2.priceLastUpdate = t) ∧
    (c.midPriceInitialized = true → c.interval ≤ u - c.midPriceLastUpdate →
      (c.updateMidPriceEMA s' u).2.midPriceEMA =
        2 / ((intervalSeconds : ℚ) + 1) * s' +
          (1 - 2 / ((intervalSeconds : ℚ) + 1)) * c.midPriceEMA ∧
      (c.updateMidPriceEMA s' u).2.midPriceLastUpdate = u) := by
  have halpha : c.alpha = 2 / ((intervalSeconds : ℚ) + 1) := by
    rw [hc]
    exact ((EMACalculator.runOps_interval_alpha _ _).2.trans rfl : _)
  refine ⟨halpha, fun hpi hgate => ?_, fun hmi hgate => ?_⟩
  · rw [← halpha]
    simp [EMACalculator.updatePriceEMA, EMACalculator.shouldUpdatePrice, hpi, hgate]
  · rw [← halpha]
    simp [EMACalculator.updateMidPriceEMA, EMACalculator.shouldUpdateMidPrice, hmi, hgate]

/-- Witness for C5: one initializing update, then a gated update six ticks
later obeys the recurrence with `α = 1/3` for the five-second interval. -/
theorem ema_recurrence_witness :
    ((⟨5, 1/3, 100, 0, true, false, 0, 0⟩ : EMACalculator) =
      (EMACalculator.construct 5).runOps [EMAOp.updPrice 100 0]) ∧
    ((5 : ℤ) ≤ (6 : ℤ) - 0) ∧
    ((EMACalculator.updatePriceEMA ⟨5, 1/3, 100, 0, true, false, 0, 0⟩ 200 6).2.priceEMA =
        2 / (((5 : ℤ) : ℚ) + 1) * 200 + (1 - 2 / (((5 : ℤ) : ℚ) + 1)) * 100 ∧
      (EMACalculator.updatePriceEMA ⟨5, 1/3, 100, 0, true, false, 0, 0⟩ 200 6).2.priceLastUpdate
        = 6) := by
  have hc : (⟨5, 1/3, 100, 0, true, false, 0, 0⟩ : EMACalculator) =
      (EMACalculator.construct 5).runOps [EMAOp.updPrice 100 0] := by
    simp [EMACalculator.runOps, EMACalculator.applyOp, EMACalculator.updatePriceEMA,
          EMACalculator.shouldUpdatePrice, EMACalculator.construct, calculateAlpha]
    norm_num
  have h := ema_recurrence 5 [EMAOp.updPrice 100 0] ⟨5, 1/3, 100, 0, true, false, 0, 0⟩
    hc 200 0 6 0
  exact ⟨hc, by decide, h.2.1 rfl (by decide)⟩


/-! ## Observable behavior of the EMA calculator (getters and flags) -/

/-- The four observer calls of `EMACalculator`. -/
def EMACalculator.obs (c : EMACalculator) : ℚ × ℚ × Bool × Bool :=
  (c.getPriceEMA, c.getMidPriceEMA, c.isPriceInitialized, c.isMidPriceInitialized)

/-- Two calculator states that differ at most in a last-update stamp whose EMA
is not initialized (the spec leaves that stamp undefined in that case). -/
def ObsEq (c₁ c₂ : EMACalculator) : Prop :=
  c₁.interval = c₂.interval ∧ c₁.alpha = c₂.alpha ∧
  c₁.priceEMA = c₂.priceEMA ∧ c₁.midPriceEMA = c₂.midPriceEMA ∧
  c₁.priceInitialized = c₂.priceInitialized ∧
  c₁.midPriceInitialized = c₂.midPriceInitialized ∧
  (c₁.priceInitialized = true → c₁.priceLastUpdate = c₂.priceLastUpdate) ∧
  (c₁.midPriceInitialized = true → c₁.midPriceLastUpdate = c₂.midPriceLastUpdate)

theorem ObsEq.obs_eq {c₁ c₂ : EMACalculator} (h : ObsEq c₁ c₂) : c₁.obs = c₂.obs := by
  obtain ⟨-, -, h3, h4, h5, h6, -, -⟩ := h
  simp [EMACalculator.obs, EMACalculator.getPriceEMA, EMACalculator.getMidPriceEMA,
        EMACalculator.isPriceInitialized, EMACalculator.isMidPriceInitialized,
        h3, h4, h5, h6]

theorem ObsEq.shouldUpdatePrice_eq {c₁ c₂ : EMACalculator} (h : ObsEq c₁ c₂) (t : ℤ) :
    c₁.shouldUpdatePrice t = c₂.shouldUpdatePrice t := by
  obtain ⟨h1, -, -, -, h5, -, h7, -⟩ := h
  unfold EMACalculator.shouldUpdatePrice
  cases hflag : c₁.priceInitialized with
  | false => simp [← h5, hflag]
  | true => simp [← h5, hflag, h1, h7 hflag]

theorem ObsEq.shouldUpdateMidPrice_eq {c₁ c₂ : EMACalculator} (h : ObsEq c₁ c₂) (t : ℤ) :
    c₁.shouldUpdateMidPrice t = c₂.shouldUpdateMidPrice t := by
  obtain ⟨h1, -, -, -, -, h6, -, h8⟩ := h
  unfold EMACalculator.shouldUpdateMidPrice
  cases hflag : c₁.midPriceInitialized with
  | false => simp [← h6, hflag]
  | true => simp [← h6, hflag, h1, h8 hflag]

theorem ObsEq.updatePriceEMA_congr {c₁ c₂ : EMACalculator} (h : ObsEq c₁ c₂) (p : ℚ) (t : ℤ) :
    (c₁.updatePriceEMA p t).1 = (c₂.updatePriceEMA p t).1 ∧
    ObsEq (c₁.updatePriceEMA p t).2 (c₂.updatePriceEMA p t).2 := by
  have hs := h.shouldUpdatePrice_eq t
  obtain ⟨h1, h2, h3, h4, h5, h6, h7, h8⟩ := h
  unfold EMACalculator.updatePriceEMA
  rw [hs]
  cases hgate : c₂.shouldUpdatePrice t with
  | false => exact ⟨h3, h1, h2, h3, h4, h5, h6, h7, h8⟩
  | true =>
    simp only [Bool.true_eq_false, if_false]
    cases hflag : c₁.priceInitialized with
    | false =>
      simp only [← h5, hflag, if_pos rfl]
      exact ⟨rfl, h1, h2, rfl, h4, rfl, h6, fun _ => rfl, h8⟩
    | true =>
      simp only [← h5, hflag, Bool.true_eq_false, if_false]
      exact ⟨by rw [h2, h3], h1, h2, by rw [h2, h3], h4, rfl, h6, fun _ => rfl, h8⟩

theorem ObsEq.updateMidPriceEMA_congr {c₁ c₂ : EMACalculator} (h : ObsEq c₁ c₂) (p : ℚ) (t : ℤ) :
    (c₁.updateMidPriceEMA p t).1 = (c₂.updateMidPriceEMA p t).1 ∧
    ObsEq (c₁.updateMidPriceEMA p t).2 (c₂.updateMidPriceEMA p t).2 := by
  have hs := h.shouldUpdateMidPrice_eq t
  obtain ⟨h1, h2, h3, h4, h5, h6, h7, h8⟩ := h
  unfold EMACalculator.updateMidPriceEMA
  rw [hs]
  cases hgate : c₂.shouldUpdateMidPrice t with
  | false => exact ⟨h4, h1, h2, h3, h4, h5, h6, h7, h8⟩
  | true =>
    simp only [Bool.true_eq_false, if_false]
    cases hflag : c₁.midPriceInitialized with
    | false =>
      simp only [← h6, hflag, if_pos rfl]
      exact ⟨rfl, h1, h2, h3, rfl, h5, rfl, h7, fun _ => rfl⟩
    | true =>
      simp only [← h6, hflag, Bool.true_eq_false, if_false]
      exact ⟨by rw [h2, h4], h1, h2, h3, by rw [h2, h4], h5, rfl, h7, fun _ => rfl⟩

theorem ObsEq.reset_congr {c₁ c₂ : EMACalculator} (h : ObsEq c₁ c₂) :
    ObsEq c₁.reset c₂.reset := by
  obtain ⟨h1, h2, -, -, -, -, -, -⟩ := h
  refine ⟨h1, h2, rfl, rfl, rfl, rfl, ?_, ?_⟩ <;> simp [EMACalculator.reset]

theorem ObsEq.applyOp_congr {c₁ c₂ : EMACalculator} (h : ObsEq c₁ c₂) (op : EMAOp) :
    ObsEq (c₁.applyOp op) (c₂.applyOp op) := by
  cases op with
  | updPrice p t => exact (h.updatePriceEMA_congr p t).2
  | updMid p t => exact (h.updateMidPriceEMA_congr p t).2
  | resetCall => exact h.reset_congr

theorem ObsEq.runOps_congr {c₁ c₂ : EMACalculator} (h : ObsEq c₁ c₂) (ops : List EMAOp) :
    ObsEq (c₁.runOps ops) (c₂.runOps ops) := by
  induction ops generalizing c₁ c₂ with
  | nil => exact h
  | cons op ops ih => exact ih (h.applyOp_congr op)


/-- Invariant: while an EMA is uninitialized its stored value is `0.0`. -/
def ZeroWhenUninit (c : EMACalculator) : Prop :=
  (c.priceInitialized = false → c.priceEMA = 0) ∧
  (c.midPriceInitialized = false → c.midPriceEMA = 0)

theorem ZeroWhenUninit.updPrice {c : EMACalculator} (h : ZeroWhenUninit c)
    (p : ℚ) (t : ℤ) : ZeroWhenUninit (c.updatePriceEMA p t).2 := by
  obtain ⟨h1, h2⟩ := h
  unfold EMACalculator.updatePriceEMA
  split
  · exact ⟨h1, h2⟩
  · split
    · exact ⟨fun hx => Bool.noConfusion hx, h2⟩
    · next hflag => exact ⟨fun hx => absurd hx hflag, h2⟩

theorem ZeroWhenUninit.updMid {c : EMACalculator} (h : ZeroWhenUninit c)
    (p : ℚ) (t : ℤ) : ZeroWhenUninit (c.updateMidPriceEMA p t).2 := by
  obtain ⟨h1, h2⟩ := h
  unfold EMACalculator.updateMidPriceEMA
  split
  · exact ⟨h1, h2⟩
  · split
    · exact ⟨h1, fun hx => Bool.noConfusion hx⟩
    · next hflag => exact ⟨h1, fun hx => absurd hx hflag⟩

theorem ZeroWhenUninit.applyOp_inv {c : EMACalculator} (h : ZeroWhenUninit c) (op : EMAOp) :
    ZeroWhenUninit (c.applyOp op) := by
  cases op with
  | updPrice p t => exact h.updPrice p t
  | updMid p t => exact h.updMid p t
  | resetCall => exact ⟨fun _ => rfl, fun _ => rfl⟩

theorem ZeroWhenUninit.runOps_inv {c : EMACalculator} (h : ZeroWhenUninit c)
    (ops : List EMAOp) : ZeroWhenUninit (c.runOps ops) := by
  induction ops generalizing c with
  | nil => exact h
  | cons op ops ih => exact ih (h.applyOp_inv op)

/-- Claim C10: the getters return exactly `0.0` whenever the corresponding EMA
is uninitialized — after construction, after any `reset()`, and in every state
reached by calls — and `reset()` restores the post-construction state in every
observable respect: the getters, the flags, and all behavior under further
calls coincide with a freshly constructed calculator. -/
theorem ema_uninitialized_zero (intervalSeconds : ℤ) (ops ops' : List EMAOp)
    (c : EMACalculator) :
    (EMACalculator.construct intervalSeconds).getPriceEMA = 0 ∧
    (EMACalculator.construct intervalSeconds).getMidPriceEMA = 0 ∧
    c.reset.getPriceEMA = 0 ∧ c.reset.getMidPriceEMA = 0 ∧
    c.reset.isPriceInitialized = false ∧ c.reset.isMidPriceInitialized = false ∧
    (((EMACalculator.construct intervalSeconds).runOps ops).isPriceInitialized = false →
      ((EMACalculator.construct intervalSeconds).runOps ops).getPriceEMA = 0) ∧
    (((EMACalculator.construct intervalSeconds).runOps ops).isMidPriceInitialized = false →
      ((EMACalculator.construct intervalSeconds).runOps ops).getMidPriceEMA = 0) ∧
    ((((EMACalculator.construct intervalSeconds).runOps ops).reset.runOps ops').obs =
      ((EMACalculator.construct intervalSeconds).runOps ops').obs) := by
  have hzero : ZeroWhenUninit ((EMACalculator.construct intervalSeconds).runOps ops) :=
    ZeroWhenUninit.runOps_inv ⟨fun _ => rfl, fun _ => rfl⟩ ops
  have hobs : ObsEq ((EMACalculator.construct intervalSeconds).runOps ops).reset
      (EMACalculator.construct intervalSeconds) := by
    have hia := EMACalculator.runOps_interval_alpha
      (EMACalculator.construct intervalSeconds) ops
    exact ⟨hia.1, hia.2, rfl, rfl, rfl, rfl, by intro hx; simp [EMACalculator.reset] at hx,
           by intro hx; simp [EMACalculator.reset] at hx⟩
  exact ⟨rfl, rfl, rfl, rfl, rfl, rfl, hzero.1, hzero.2, (hobs.runOps_congr ops').obs_eq⟩

/-- Witness for C10: zero getters on fresh and reset states, and
reset-then-replay matching fresh-replay, at concrete inputs. -/
theorem ema_uninitialized_zero_witness :
    ((EMACalculator.construct 5).runOps []).isPriceInitialized = false ∧
    ((EMACalculator.construct 5).runOps []).getPriceEMA = 0 ∧
    ((((EMACalculator.construct 5).runOps [EMAOp.updPrice 100 0]).reset.runOps
        [EMAOp.updPrice 7 1]).obs =
      ((EMACalculator.construct 5).runOps [EMAOp.updPrice 7 1]).obs) := by
  have h1 := ema_uninitialized_zero 5 [] [] (EMACalculator.construct 5)
  have h2 := ema_uninitialized_zero 5 [EMAOp.updPrice 100 0] [EMAOp.updPrice 7 1]
    (EMACalculator.construct 5)
  exact ⟨rfl, h1.2.2.2.2.2.2.1 rfl, h2.2.2.2.2.2.2.2.2⟩


/-! ## LockFreeRingBuffer (src/include/LockFreeRingBuffer.h)

The template parameter `Size` is a compile-time power of two (enforced by a
`static_assert`), written `2^k` here.  The producer and consumer indices are
`size_t` values that the source keeps below `Size` by masking with `Size - 1`
at every advance; accordingly they are carried as `Fin (2^k)`.  The sequential
semantics below is the SPSC execution serialized, which is the order the
acquire/release pairing on the two indices guarantees. -/

theorem two_pow_pos (k : ℕ) : 0 < 2 ^ k := Nat.pos_pow_of_pos k (by norm_num)

/-- `x & (Size - 1)` — the fast modulo of the source. -/
def maskIdx (k x : ℕ) : ℕ := x &&& (2 ^ k - 1)

theorem maskIdx_eq_mod (k x : ℕ) : maskIdx k x = x % 2 ^ k := by
  apply Nat.eq_of_testBit_eq
  intro i
  rw [maskIdx, Nat.testBit_and, Nat.testBit_mod_two_pow]
  rcases lt_or_ge i k with h | h
  · simp [Nat.testBit_two_pow_sub_one, h]
  · simp [Nat.testBit_two_pow_sub_one, h, Nat.not_lt.mpr h]

theorem maskIdx_lt (k x : ℕ) : maskIdx k x < 2 ^ k := by
  rw [maskIdx_eq_mod]; exact Nat.mod_lt _ (two_pow_pos k)

/-- State of a `LockFreeRingBuffer<T, 2^k>`: the slot array `m_buffer`, the
consumer index `m_head` and the producer index `m_tail`. -/
structure LockFreeRingBuffer (T : Type) (k : ℕ) where
  buffer : Fin (2 ^ k) → T
  head : Fin (2 ^ k)
  tail : Fin (2 ^ k)

namespace LockFreeRingBuffer

variable {T : Type} {k : ℕ}

/-- `(i + 1) & (Size - 1)` as a `Fin`. -/
def nextIdx (i : Fin (2 ^ k)) : Fin (2 ^ k) :=
  ⟨maskIdx k (i.val + 1), maskIdx_lt k _⟩

/-- The default-constructed ring: both indices `0`, slots default-initialized. -/
def construct (d : T) : LockFreeRingBuffer T k :=
  { buffer := fun _ => d
    head := ⟨0, two_pow_pos k⟩
    tail := ⟨0, two_pow_pos k⟩ }

/-- `push`: returns the `bool` result and the post-call state. -/
def push (rb : LockFreeRingBuffer T k) (item : T) : Bool × LockFreeRingBuffer T k :=
  let current_tail := rb.tail
  let next_tail := nextIdx current_tail
  if next_tail = rb.head then (false, rb)
  else (true, { rb with buffer := Function.update rb.buffer current_tail item,
                        tail := next_tail })

/-- `pop`: returns `none` on an empty buffer, else the item and the post-call
state. -/
def pop (rb : LockFreeRingBuffer T k) : Option (T × LockFreeRingBuffer T k) :=
  let current_head := rb.head
  if current_head = rb.tail then none
  else some (rb.buffer current_head, { rb with head := nextIdx current_head })

/-- `empty()`. -/
def isEmpty (rb : LockFreeRingBuffer T k) : Bool := decide (rb.head = rb.tail)

/-- `full()`. -/
def full (rb : LockFreeRingBuffer T k) : Bool := decide (nextIdx rb.tail = rb.head)

/-- `size()`: `(m_tail - m_head) & (Size - 1)` where the subtraction wraps at
`2^64` (`size_t`). -/
def size (rb : LockFreeRingBuffer T k) : ℕ :=
  maskIdx k ((rb.tail.val + 2 ^ 64 - rb.head.val) % 2 ^ 64)

/-- `capacity()`: `Size - 1`. -/
def capacity (_rb : LockFreeRingBuffer T k) : ℕ := 2 ^ k - 1

/-- `clear()`. -/
def clear (rb : LockFreeRingBuffer T k) : LockFreeRingBuffer T k :=
  { rb with head := ⟨0, two_pow_pos k⟩, tail := ⟨0, two_pow_pos k⟩ }

/-- Number of pending items, computed without the `size_t` wrap. -/
def count (rb : LockFreeRingBuffer T k) : ℕ :=
  (2 ^ k + rb.tail.val - rb.head.val) % 2 ^ k

/-- Abstraction: the pending items from `m_head` (oldest) to `m_tail`
(exclusive, newest). -/
def toList (rb : LockFreeRingBuffer T k) : List T :=
  (List.range rb.count).map fun i =>
    rb.buffer ⟨(rb.head.val + i) % 2 ^ k, Nat.mod_lt _ (two_pow_pos k)⟩

theorem count_eq (rb : LockFreeRingBuffer T k) :
    rb.count = if rb.head.val ≤ rb.tail.val then rb.tail.val - rb.head.val
               else 2 ^ k + rb.tail.val - rb.head.val := by
  have ht := rb.tail.isLt
  have hh := rb.head.isLt
  unfold count
  split
  · next hle =>
    have : 2 ^ k + rb.tail.val - rb.head.val = 2 ^ k + (rb.tail.val - rb.head.val) := by
      omega
    rw [this, Nat.add_mod_left, Nat.mod_eq_of_lt (by omega)]
  · next hgt =>
    exact Nat.mod_eq_of_lt (by omega)

theorem count_lt (rb : LockFreeRingBuffer T k) : rb.count < 2 ^ k :=
  Nat.mod_lt _ (two_pow_pos k)

/-- The source's `size()` agrees with `count` whenever the ring size fits in
`size_t`, i.e. `k ≤ 64`. -/
theorem size_eq_count (h64 : k ≤ 64) (rb : LockFreeRingBuffer T k) :
    rb.size = rb.count := by
  have ht := rb.tail.isLt
  have hh := rb.head.isLt
  have hpow : (2 : ℕ) ^ k ≤ 2 ^ 64 := Nat.pow_le_pow_right (by norm_num) h64
  unfold size count
  rw [maskIdx_eq_mod]
  rw [Nat.mod_mod_of_dvd _ (pow_dvd_pow 2 h64)]
  have hsplit : rb.tail.val + 2 ^ 64 - rb.head.val =
      (2 ^ k + rb.tail.val - rb.head.val) + 2 ^ k * (2 ^ (64 - k) - 1) := by
    have h2 : (2 : ℕ) ^ k * 2 ^ (64 - k) = 2 ^ 64 := by
      rw [← pow_add]
      congr 1
      omega
    have h3 : (2 : ℕ) ^ k * (2 ^ (64 - k) - 1) = 2 ^ 64 - 2 ^ k := by
      rw [Nat.mul_sub_one]; omega
    omega
  rw [hsplit, Nat.add_mul_mod_self_left]

end LockFreeRingBuffer


namespace LockFreeRingBuffer

variable {T : Type} {k : ℕ}

theorem nextIdx_val (i : Fin (2 ^ k)) : (nextIdx i).val = (i.val + 1) % 2 ^ k := by
  simp [nextIdx, maskIdx_eq_mod]

theorem count_zero_iff (rb : LockFreeRingBuffer T k) :
    rb.count = 0 ↔ rb.head = rb.tail := by
  have ht := rb.tail.isLt
  have hh := rb.head.isLt
  rw [count_eq, Fin.ext_iff]
  split <;> omega

/-- `full()` holds exactly when the pending count is `Size - 1`. -/
theorem full_iff_count (rb : LockFreeRingBuffer T k) :
    rb.full = true ↔ rb.count = 2 ^ k - 1 := by
  have ht := rb.tail.isLt
  have hh := rb.head.isLt
  rw [full, decide_eq_true_eq, Fin.ext_iff, nextIdx_val, count_eq]
  rcases Nat.lt_or_ge (rb.tail.val + 1) (2 ^ k) with hc | hc
  · rw [Nat.mod_eq_of_lt hc]
    split <;> omega
  · have h1 : rb.tail.val + 1 = 2 ^ k := by omega
    rw [h1, Nat.mod_self]
    split <;> omega

/-- `push` returns `false` exactly on a full buffer, and leaves the state
untouched in that case. -/
theorem push_fail (rb : LockFreeRingBuffer T k) (x : T) (h : rb.full = true) :
    rb.push x = (false, rb) := by
  rw [full, decide_eq_true_eq] at h
  simp [push, h]

theorem push_fst_false_iff (rb : LockFreeRingBuffer T k) (x : T) :
    (rb.push x).1 = false ↔ rb.full = true := by
  rw [full, decide_eq_true_eq]
  by_cases hc : nextIdx rb.tail = rb.head <;> simp [push, hc]

theorem idx_at_count (rb : LockFreeRingBuffer T k) :
    (rb.head.val + rb.count) % 2 ^ k = rb.tail.val := by
  have ht := rb.tail.isLt
  have hh := rb.head.isLt
  rw [count_eq]
  split
  · next hle =>
    rw [Nat.add_sub_cancel' hle, Nat.mod_eq_of_lt ht]
  · next hgt =>
    have : rb.head.val + (2 ^ k + rb.tail.val - rb.head.val) = 2 ^ k + rb.tail.val := by
      omega
    rw [this, Nat.add_mod_left, Nat.mod_eq_of_lt ht]

theorem idx_pending_ne_tail (rb : LockFreeRingBuffer T k) {i : ℕ} (hi : i < rb.count) :
    (rb.head.val + i) % 2 ^ k ≠ rb.tail.val := by
  have ht := rb.tail.isLt
  have hh := rb.head.isLt
  rw [count_eq] at hi
  intro hEq
  rcases Nat.lt_or_ge (rb.head.val + i) (2 ^ k) with hc | hc
  · rw [Nat.mod_eq_of_lt hc] at hEq
    split at hi <;> omega
  · have h2 : rb.head.val + i - 2 ^ k < 2 ^ k := by
      split at hi <;> omega
    rw [Nat.mod_eq_sub_mod hc, Nat.mod_eq_of_lt h2] at hEq
    split at hi <;> omega

/-- A successful `push` appends the item and grows the pending count by one. -/
theorem push_ok (rb : LockFreeRingBuffer T k) (x : T) (h : (rb.push x).1 = true) :
    (rb.push x).2.count = rb.count + 1 ∧
    (rb.push x).2.toList = rb.toList ++ [x] := by
  have ht := rb.tail.isLt
  have hh := rb.head.isLt
  have hsucc : ¬ nextIdx rb.tail = rb.head := by
    intro hEq
    simp [push, hEq] at h
  have hpush : rb.push x =
      (true, { rb with buffer := Function.update rb.buffer rb.tail x,
                       tail := nextIdx rb.tail }) := by
    simp [push, hsucc]
  rw [Fin.ext_iff, nextIdx_val] at hsucc
  have hcount : (rb.push x).2.count = rb.count + 1 := by
    rw [hpush]
    show (2 ^ k + (nextIdx rb.tail).val - rb.head.val) % 2 ^ k = rb.count + 1
    rw [nextIdx_val, count_eq]
    rcases Nat.lt_or_ge (rb.tail.val + 1) (2 ^ k) with hc | hc
    · rw [Nat.mod_eq_of_lt hc]
      have : (2 ^ k + (rb.tail.val + 1) - rb.head.val) % 2 ^ k =
          if rb.head.val ≤ rb.tail.val + 1 then rb.tail.val + 1 - rb.head.val
          else 2 ^ k + (rb.tail.val + 1) - rb.head.val := by
        split
        · next hle =>
          have heq2 : 2 ^ k + (rb.tail.val + 1) - rb.head.val =
              2 ^ k + (rb.tail.val + 1 - rb.head.val) := by omega
          rw [heq2, Nat.add_mod_left, Nat.mod_eq_of_lt (by omega)]
        · next hgt => exact Nat.mod_eq_of_lt (by omega)
      rw [this]
      rw [Nat.mod_eq_of_lt hc] at hsucc
      split <;> split <;> omega
    · have h1 : rb.tail.val + 1 = 2 ^ k := by omega
      rw [h1, Nat.mod_self] at hsucc ⊢
      have h2 : (2 ^ k + 0 - rb.head.val) % 2 ^ k = 2 ^ k - rb.head.val := by
        rcases Nat.eq_zero_or_pos rb.head.val with h0 | h0
        · omega
        · exact Nat.mod_eq_of_lt (by omega)
      rw [h2]
      split <;> omega
  refine ⟨hcount, ?_⟩
  rw [hpush] at hcount ⊢
  unfold toList
  simp only at hcount ⊢
  rw [hcount, List.range_succ, List.map_append]
  congr 1
  · apply List.map_congr_left
    intro i hi
    rw [List.mem_range] at hi
    apply Function.update_noteq
    exact Fin.ne_of_val_ne (idx_pending_ne_tail rb hi)
  · simp only [List.map_cons, List.map_nil]
    congr 1
    have hfin : (⟨(rb.head.val + rb.count) % 2 ^ k, Nat.mod_lt _ (two_pow_pos k)⟩ :
        Fin (2 ^ k)) = rb.tail := Fin.ext (idx_at_count rb)
    rw [hfin, Function.update_same]

/-- `pop` on an empty buffer returns `none`; otherwise it returns the oldest
pending item, which is removed from the front. -/
theorem pop_none_iff (rb : LockFreeRingBuffer T k) :
    rb.pop = none ↔ rb.head = rb.tail := by
  by_cases hc : rb.head = rb.tail <;> simp [pop, hc]

theorem pop_count (rb : LockFreeRingBuffer T k) (h : rb.head ≠ rb.tail) :
    ({ rb with head := nextIdx rb.head } : LockFreeRingBuffer T k).count + 1 = rb.count := by
  have ht := rb.tail.isLt
  have hh := rb.head.isLt
  have hne : rb.head.val ≠ rb.tail.val := fun hx => h (Fin.ext hx)
  show ((2 ^ k + rb.tail.val - (nextIdx rb.head).val) % 2 ^ k) + 1 = rb.count
  rw [nextIdx_val, count_eq]
  rcases Nat.lt_or_ge (rb.head.val + 1) (2 ^ k) with hc | hc
  · rw [Nat.mod_eq_of_lt hc]
    have : (2 ^ k + rb.tail.val - (rb.head.val + 1)) % 2 ^ k =
        if rb.head.val + 1 ≤ rb.tail.val then rb.tail.val - (rb.head.val + 1)
        else 2 ^ k + rb.tail.val - (rb.head.val + 1) := by
      split
      · next hle =>
        have heq2 : 2 ^ k + rb.tail.val - (rb.head.val + 1) =
            2 ^ k + (rb.tail.val - (rb.head.val + 1)) := by omega
        rw [heq2, Nat.add_mod_left, Nat.mod_eq_of_lt (by omega)]
      · next hgt => exact Nat.mod_eq_of_lt (by omega)
    rw [this]
    split <;> split <;> omega
  · have h1 : rb.head.val + 1 = 2 ^ k := by omega
    rw [h1, Nat.mod_self]
    have h2 : (2 ^ k + rb.tail.val - 0) % 2 ^ k = rb.tail.val := by
      rw [Nat.sub_zero, Nat.add_mod_left, Nat.mod_eq_of_lt ht]
    rw [h2]
    split <;> omega

theorem pop_ok (rb : LockFreeRingBuffer T k) (h : rb.head ≠ rb.tail) :
    rb.pop = some (rb.buffer rb.head, { rb with head := nextIdx rb.head }) ∧
    ({ rb with head := nextIdx rb.head } : LockFreeRingBuffer T k).count + 1 = rb.count ∧
    rb.toList = rb.buffer rb.head ::
      ({ rb with head := nextIdx rb.head } : LockFreeRingBuffer T k).toList := by
  have ht := rb.tail.isLt
  have hh := rb.head.isLt
  refine ⟨by simp [pop, h], pop_count rb h, ?_⟩
  unfold toList
  simp only
  rw [show rb.count =
      ({ rb with head := nextIdx rb.head } : LockFreeRingBuffer T k).count + 1 from
    (pop_count rb h).symm]
  rw [List.range_succ_eq_map, List.map_cons, List.map_map]
  congr 1
  · congr 1
    exact Fin.ext (by simp [Nat.mod_eq_of_lt hh])
  · apply List.map_congr_left
    intro i hi
    show rb.buffer _ = rb.buffer _
    congr 1
    apply Fin.ext
    show (rb.head.val + (i + 1)) % 2 ^ k = ((nextIdx rb.head).val + i) % 2 ^ k
    rw [nextIdx_val, Nat.mod_add_mod]
    congr 1
    omega

end LockFreeRingBuffer


/-! ### Serialized operation traces on a ring -/

/-- One operation of the serialized SPSC history. -/
inductive RingOp (T : Type) where
  | pushOp (x : T)
  | popOp
  deriving Repr, DecidableEq

namespace LockFreeRingBuffer

variable {T : Type} {k : ℕ}

/-- The state after one operation (a failed push or pop leaves it unchanged). -/
def stepOp (rb : LockFreeRingBuffer T k) : RingOp T → LockFreeRingBuffer T k
  | .pushOp x => (rb.push x).2
  | .popOp =>
    match rb.pop with
    | none => rb
    | some (_, rb') => rb'

/-- The state after a sequence of operations. -/
def runOps (rb : LockFreeRingBuffer T k) (ops : List (RingOp T)) : LockFreeRingBuffer T k :=
  ops.foldl stepOp rb

/-- The items whose push succeeded, in submission order. -/
def accepted : LockFreeRingBuffer T k → List (RingOp T) → List T
  | _, [] => []
  | rb, .pushOp x :: ops =>
    (if (rb.push x).1 then [x] else []) ++ accepted (rb.stepOp (.pushOp x)) ops
  | rb, .popOp :: ops => accepted (rb.stepOp .popOp) ops

/-- The items returned by successful pops, in delivery order. -/
def delivered : LockFreeRingBuffer T k → List (RingOp T) → List T
  | _, [] => []
  | rb, .pushOp x :: ops => delivered (rb.stepOp (.pushOp x)) ops
  | rb, .popOp :: ops =>
    match rb.pop with
    | none => delivered rb ops
    | some (x, rb') => x :: delivered rb' ops

/-- Queue identity: what was delivered so far plus what is still pending is
exactly what was accepted so far, in order. -/
theorem delivered_append_toList (ops : List (RingOp T)) (rb : LockFreeRingBuffer T k) :
    rb.delivered ops ++ (rb.runOps ops).toList = rb.toList ++ rb.accepted ops := by
  induction ops generalizing rb with
  | nil => simp [delivered, accepted, runOps]
  | cons op ops ih =>
    cases op with
    | pushOp x =>
      cases hp : (rb.push x).1 with
      | false =>
        have hstate : rb.stepOp (.pushOp x) = rb := by
          have hfull := (push_fst_false_iff rb x).mp hp
          simp [stepOp, push_fail rb x hfull]
        simp only [delivered, accepted, runOps, List.foldl_cons, hp, if_false]
        rw [hstate]
        simpa [runOps] using ih rb
      | true =>
        have hpush := push_ok rb x hp
        have hstate : rb.stepOp (.pushOp x) = (rb.push x).2 := rfl
        simp only [delivered, accepted, runOps, List.foldl_cons, hp, if_true]
        rw [hstate]
        have := ih (rb.push x).2
        simp only [runOps] at this ⊢
        rw [this, hpush.2]
        simp
    | popOp =>
      by_cases hc : rb.head = rb.tail
      · have hnone : rb.pop = none := (pop_none_iff rb).mpr hc
        have hstate : rb.stepOp .popOp = rb := by simp [stepOp, hnone]
        simp only [delivered, accepted, runOps, List.foldl_cons]
        rw [hstate]
        split
        · simpa [runOps] using ih rb
        · next heq => rw [hnone] at heq; cases heq
      · have hpop := pop_ok rb hc
        have hstate : rb.stepOp .popOp =
            { rb with head := nextIdx rb.head } := by simp [stepOp, hpop.1]
        simp only [delivered, accepted, runOps, List.foldl_cons]
        rw [hstate]
        split
        · next heq => rw [hpop.1] at heq; cases heq
        · next x rb' heq =>
          rw [hpop.1] at heq
          injection heq with heq2
          injection heq2 with hx hrb
          subst hx hrb
          have := ih { rb with head := nextIdx rb.head }
          simp only [runOps] at this ⊢
          rw [List.cons_append, this, hpop.2.2]
          simp

end LockFreeRingBuffer


theorem LockFreeRingBuffer.construct_toList {T : Type} {k : ℕ} (d : T) :
    (LockFreeRingBuffer.construct d : LockFreeRingBuffer T k).toList = [] := by
  simp [LockFreeRingBuffer.toList, LockFreeRingBuffer.count, LockFreeRingBuffer.construct]

/-- Claim C4: starting from a freshly constructed ring, the successful pops of
any operation sequence return exactly the successfully pushed items in push
order (the pending suffix completes the accepted list), while a push that
fails on a full ring and a pop that fails on an empty ring leave the state
unchanged. -/
theorem ring_fifo {T : Type} (k : ℕ) (d : T) (ops : List (RingOp T))
    (rb : LockFreeRingBuffer T k) (x : T) :
    ((LockFreeRingBuffer.construct d : LockFreeRingBuffer T k).delivered ops ++
        ((LockFreeRingBuffer.construct d : LockFreeRingBuffer T k).runOps ops).toList =
      (LockFreeRingBuffer.construct d : LockFreeRingBuffer T k).accepted ops) ∧
    ((rb.push x).1 = false → rb.push x = (false, rb)) ∧
    (rb.full = true → rb.push x = (false, rb)) ∧
    (rb.isEmpty = true → rb.pop = none) ∧
    (rb.pop = none → rb.stepOp RingOp.popOp = rb) := by
  refine ⟨?_, ?_, ?_, ?_, ?_⟩
  · rw [LockFreeRingBuffer.delivered_append_toList, LockFreeRingBuffer.construct_toList,
        List.nil_append]
  · intro h
    exact LockFreeRingBuffer.push_fail rb x ((LockFreeRingBuffer.push_fst_false_iff rb x).mp h)
  · exact LockFreeRingBuffer.push_fail rb x
  · intro h
    rw [LockFreeRingBuffer.isEmpty, decide_eq_true_eq] at h
    exact (LockFreeRingBuffer.pop_none_iff rb).mpr h
  · intro h
    simp [LockFreeRingBuffer.stepOp, h]

/-- A concrete full two-slot ring holding one item. -/
def fullRing2 : LockFreeRingBuffer ℕ 1 :=
  ⟨fun _ => 0, ⟨0, two_pow_pos 1⟩, ⟨1, by norm_num⟩⟩

/-- Witness for C4: a push/push/pop/pop history on a capacity-1 ring, a failed
push on a full ring, and a failed pop on an empty ring. -/
theorem ring_fifo_witness :
    ((LockFreeRingBuffer.construct 0 : LockFreeRingBuffer ℕ 1).delivered
        [RingOp.pushOp 1, RingOp.pushOp 2, RingOp.popOp, RingOp.popOp] ++
        ((LockFreeRingBuffer.construct 0 : LockFreeRingBuffer ℕ 1).runOps
          [RingOp.pushOp 1, RingOp.pushOp 2, RingOp.popOp, RingOp.popOp]).toList =
      (LockFreeRingBuffer.construct 0 : LockFreeRingBuffer ℕ 1).accepted
        [RingOp.pushOp 1, RingOp.pushOp 2, RingOp.popOp, RingOp.popOp]) ∧
    fullRing2.push 5 = (false, fullRing2) ∧
    (LockFreeRingBuffer.construct 0 : LockFreeRingBuffer ℕ 1).pop = none := by
  have h1 := ring_fifo 1 (0 : ℕ)
    [RingOp.pushOp 1, RingOp.pushOp 2, RingOp.popOp, RingOp.popOp]
    (LockFreeRingBuffer.construct 0) 5
  have h2 := ring_fifo 1 (0 : ℕ) [] fullRing2 5
  exact ⟨h1.1, h2.2.2.1 (by decide), h1.2.2.2.1 (by decide)⟩

/-- Claim C7: in every state reached from a fresh ring of size `2^k` (for any
ring that fits a `size_t` index, `k ≤ 64`), `size()` never exceeds
`2^k - 1 = capacity()`, and `full()` holds exactly when `size()` equals
`2^k - 1`, equivalently exactly when `push` fails. -/
theorem ring_capacity {T : Type} (k : ℕ) (h64 : k ≤ 64) (d : T)
    (ops : List (RingOp T)) (x : T) :
    ((LockFreeRingBuffer.construct d : LockFreeRingBuffer T k).runOps ops).size ≤ 2 ^ k - 1 ∧
    (((LockFreeRingBuffer.construct d : LockFreeRingBuffer T k).runOps ops).full = true ↔
      ((LockFreeRingBuffer.construct d : LockFreeRingBuffer T k).runOps ops).size = 2 ^ k - 1) ∧
    (((LockFreeRingBuffer.construct d : LockFreeRingBuffer T k).runOps ops).full = true ↔
      (((LockFreeRingBuffer.construct d : LockFreeRingBuffer T k).runOps ops).push x).1 =
        false) ∧
    ((LockFreeRingBuffer.construct d : LockFreeRingBuffer T k).runOps ops).capacity =
      2 ^ k - 1 := by
  set rb := (LockFreeRingBuffer.construct d : LockFreeRingBuffer T k).runOps ops
  have hsz := LockFreeRingBuffer.size_eq_count h64 rb
  refine ⟨?_, ?_, ?_, rfl⟩
  · rw [hsz]
    have := LockFreeRingBuffer.count_lt rb
    omega
  · rw [hsz]
    exact LockFreeRingBuffer.full_iff_count rb
  · exact ((LockFreeRingBuffer.push_fst_false_iff rb x).symm)

/-- Witness for C7 on a two-slot ring filled to capacity. -/
theorem ring_capacity_witness :
    ((1 : ℕ) ≤ 64) ∧
    ((LockFreeRingBuffer.construct 0 : LockFreeRingBuffer ℕ 1).runOps
        [RingOp.pushOp 7]).size ≤ 2 ^ 1 - 1 ∧
    (((LockFreeRingBuffer.construct 0 : LockFreeRingBuffer ℕ 1).runOps
        [RingOp.pushOp 7]).full = true ↔
      ((LockFreeRingBuffer.construct 0 : LockFreeRingBuffer ℕ 1).runOps
        [RingOp.pushOp 7]).size = 2 ^ 1 - 1) := by
  have h := ring_capacity 1 (by norm_num) (0 : ℕ) [RingOp.pushOp 7] 9
  exact ⟨by norm_num, h.1, h.2.1⟩


/-! ## TickerData and CSV serialization
(src/include/TickerData.h, src/src/TickerData.cpp, src/src/AsyncCSVLogger.cpp)

C++ `std::string` is `String`; the `double` fields are `ℚ`. -/

/-- `value.find(c) != std::string::npos`. -/
def containsChar (s : String) (c : Char) : Bool := s.data.contains c

/-- Occurrences of a character in a string. -/
def countChar (s : String) (c : Char) : ℕ := s.data.count c

/-- The escaping helper shared verbatim by `TickerData::toCSV`,
`CSVLogger::escapeCSVField` and `AsyncCSVLogger::escapeCSVField`: a field
containing a comma, double-quote or newline is wrapped in double-quotes with
each embedded double-quote doubled; any other field is returned unchanged. -/
def escapeCSVField (s : String) : String :=
  if containsChar s ',' || containsChar s '"' || containsChar s '\n' then
    "\"" ++ ⟨s.data.flatMap fun c => if c = '"' then ['"', '"'] else [c]⟩ ++ "\""
  else s

/-- The `escape` lambda of `AsyncCSVLogger::formatToCSV`: it tests whether the
field would need escaping but returns the field unchanged on both paths (the
escaping branch is left as a comment in the source). -/
def asyncRowEscape (s : String) : String :=
  if !containsChar s ',' && !containsChar s '"' && !containsChar s '\n' then s
  else s

/-- One decimal digit character. -/
def digitChar10 (d : ℕ) : Char :=
  "0123456789".data.getD (d % 10) '0'

/-- Decimal digits of a natural number, most significant first; `fuel`
bounds the recursion and `n + 1` is always enough. -/
def natDecAux : ℕ → ℕ → List Char
  | 0, _ => []
  | fuel + 1, n =>
    if n < 10 then [digitChar10 n]
    else natDecAux fuel (n / 10) ++ [digitChar10 (n % 10)]

/-- Decimal rendering of a natural number (the digits `operator<<` prints). -/
def natDec (n : ℕ) : String := ⟨natDecAux (n + 1) n⟩

/-- `std::fixed << std::setprecision(8) << x`: sign, integer digits, `.`, and
exactly eight fractional digits of the value rounded to `1e-8`. -/
def fmt8 (q : ℚ) : String :=
  let n : ℕ := (⌊|q| * 100000000 + 1 / 2⌋).toNat
  let frac := natDec (n % 100000000)
  (if q < 0 then "-" else "") ++ natDec (n / 100000000) ++ "." ++
    ⟨List.replicate (8 - frac.data.length) '0' ++ frac.data⟩

/-- The `TickerData` record: the fifteen transport strings, the three computed
`double` fields, and the internal `timestamp`. -/
structure TickerData where
  type : String
  sequence : String
  product_id : String
  price : String
  open_24h : String
  volume_24h : String
  low_24h : String
  high_24h : String
  volume_30d : String
  best_bid : String
  best_ask : String
  side : String
  time : String
  trade_id : String
  last_size : String
  price_ema : ℚ
  mid_price_ema : ℚ
  mid_price : ℚ
  timestamp : ℤ
  deriving Repr, DecidableEq

/-- The `TickerData()` default constructor: empty strings, zero numbers. -/
def TickerData.default : TickerData :=
  ⟨"", "", "", "", "", "", "", "", "", "", "", "", "", "", "", 0, 0, 0, 0⟩

/-- The fifteen transport strings in row order. -/
def TickerData.transportFields (d : TickerData) : List String :=
  [d.type, d.sequence, d.product_id, d.price, d.open_24h, d.volume_24h,
   d.low_24h, d.high_24h, d.volume_30d, d.best_bid, d.best_ask, d.side,
   d.time, d.trade_id, d.last_size]

/-- `TickerData::toCSV`: the escaped transport fields and then the three real
fields in fixed-point notation with eight fractional digits, comma-separated
in the fixed order of the source. -/
def TickerData.toCSV (d : TickerData) : String :=
  escapeCSVField d.type ++ "," ++ escapeCSVField d.sequence ++ "," ++
  escapeCSVField d.product_id ++ "," ++ escapeCSVField d.price ++ "," ++
  escapeCSVField d.open_24h ++ "," ++ escapeCSVField d.volume_24h ++ "," ++
  escapeCSVField d.low_24h ++ "," ++ escapeCSVField d.high_24h ++ "," ++
  escapeCSVField d.volume_30d ++ "," ++ escapeCSVField d.best_bid ++ "," ++
  escapeCSVField d.best_ask ++ "," ++ escapeCSVField d.side ++ "," ++
  escapeCSVField d.time ++ "," ++ escapeCSVField d.trade_id ++ "," ++
  escapeCSVField d.last_size ++ "," ++
  fmt8 d.price_ema ++ "," ++ fmt8 d.mid_price_ema ++ "," ++ fmt8 d.mid_price

/-- `AsyncCSVLogger::formatToCSV`: same field order but with the non-escaping
`escape` lambda, and one extra field — the microsecond timestamp taken from
`HighResTimer::nowMicros()` at formatting time, passed in here. -/
def formatToCSV (d : TickerData) (nowMicros : ℕ) : String :=
  asyncRowEscape d.type ++ "," ++ asyncRowEscape d.sequence ++ "," ++
  asyncRowEscape d.product_id ++ "," ++ asyncRowEscape d.price ++ "," ++
  asyncRowEscape d.open_24h ++ "," ++ asyncRowEscape d.volume_24h ++ "," ++
  asyncRowEscape d.low_24h ++ "," ++ asyncRowEscape d.high_24h ++ "," ++
  asyncRowEscape d.volume_30d ++ "," ++ asyncRowEscape d.best_bid ++ "," ++
  asyncRowEscape d.best_ask ++ "," ++ asyncRowEscape d.side ++ "," ++
  asyncRowEscape d.time ++ "," ++ asyncRowEscape d.trade_id ++ "," ++
  asyncRowEscape d.last_size ++ "," ++
  fmt8 d.price_ema ++ "," ++ fmt8 d.mid_price_ema ++ "," ++ fmt8 d.mid_price ++
  "," ++ natDec nowMicros


/-! ## CSVLogger (src/src/CSVLogger.cpp) and AsyncCSVLogger (src/src/AsyncCSVLogger.cpp) -/

/-- The header row `CSVLogger::writeHeaders` writes (18 columns). -/
def csvHeaderLine : String :=
  "type,sequence,product_id,price,open_24h,volume_24h,low_24h,high_24h," ++
  "volume_30d,best_bid,best_ask,side,time,trade_id,last_size," ++
  "price_ema,mid_price_ema,mid_price"

/-- The header row `AsyncCSVLogger::writeHeaders` writes (19 columns,
with the trailing `timestamp_us`). -/
def asyncCsvHeaderLine : String :=
  "type,sequence,product_id,price,open_24h,volume_24h,low_24h,high_24h," ++
  "volume_30d,best_bid,best_ask,side,time,trade_id,last_size," ++
  "price_ema,mid_price_ema,mid_price,timestamp_us"

/-- State of a `CSVLogger` object: the lines of the output file, whether the
stream is open, and the per-instance `m_headersWritten` flag. -/
structure CSVLogger where
  file : List String
  isOpen : Bool
  headersWritten : Bool
  deriving Repr, DecidableEq

/-- The `CSVLogger(filename)` constructor: the target is opened in append
mode, so the lines already in the file are kept; `m_headersWritten` starts
`false`.  `existing` is the prior content of the target file. -/
def CSVLogger.construct (existing : List String) : CSVLogger :=
  { file := existing, isOpen := true, headersWritten := false }

/-- `CSVLogger::writeHeaders`: appends the header line unless the stream is
closed or this instance already wrote it.  The file's prior content is never
examined. -/
def CSVLogger.writeHeaders (lg : CSVLogger) : CSVLogger :=
  if lg.isOpen = false || lg.headersWritten then lg
  else { lg with file := lg.file ++ [csvHeaderLine], headersWritten := true }

/-- `CSVLogger::logTickerData`: write headers on the first call of this
instance, then append `data.toCSV()` as one line. -/
def CSVLogger.logTickerData (lg : CSVLogger) (data : TickerData) : CSVLogger :=
  if lg.isOpen = false then lg
  else
    let lg' := if lg.headersWritten = false then lg.writeHeaders else lg
    { lg' with file := lg'.file ++ [data.toCSV] }

/-- A sequence of `logTickerData` calls on one logger instance. -/
def CSVLogger.runLogs (lg : CSVLogger) (ds : List TickerData) : CSVLogger :=
  ds.foldl CSVLogger.logTickerData lg

/-- State of an `AsyncCSVLogger`: the `m_ready` flag and the SPSC queue
`LockFreeRingBuffer<TickerData, 8192>` (`8192 = 2^13`). -/
structure AsyncCSVLogger where
  ready : Bool
  logQueue : LockFreeRingBuffer TickerData 13

/-- `AsyncCSVLogger::logTickerData`: reject when not ready, else a single
non-blocking `push` whose result is returned to the caller.  Nothing is
popped and no drop counter exists. -/
def AsyncCSVLogger.logTickerData (lg : AsyncCSVLogger) (data : TickerData) :
    Bool × AsyncCSVLogger :=
  if lg.ready = false then (false, lg)
  else
    let r := lg.logQueue.push data
    (r.1, { lg with logQueue := r.2 })


/-- Claim C2 (divergence): when Ring-B (`m_logQueue`) is full, the Compute
side's `AsyncCSVLogger::logTickerData` merely returns the failed `push`: the
new record is discarded, no oldest record is popped, no counter exists, and
the retained records are the oldest ones — the source behaves drop-newest
where the spec (and the repository's own design documents) prescribe
drop-oldest. -/
theorem ringB_overrun_drop_newest (lg : AsyncCSVLogger) (data : TickerData)
    (hready : lg.ready = true) (hfull : lg.logQueue.full = true) :
    lg.logTickerData data = (false, lg) ∧
    (lg.logTickerData data).2.logQueue.toList = lg.logQueue.toList := by
  obtain ⟨r, q⟩ := lg
  have hr : r = true := hready
  subst hr
  have hpush := LockFreeRingBuffer.push_fail q data hfull
  have hcall : AsyncCSVLogger.logTickerData ⟨true, q⟩ data = (false, ⟨true, q⟩) := by
    simp [AsyncCSVLogger.logTickerData, hpush]
  exact ⟨hcall, by rw [hcall]⟩

/-- A ready `AsyncCSVLogger` whose 8192-slot queue is full (8191 pending). -/
def fullAsyncLogger : AsyncCSVLogger :=
  ⟨true, ⟨fun _ => TickerData.default, ⟨0, two_pow_pos 13⟩, ⟨8191, by norm_num⟩⟩⟩

/-- Witness for C2: on the full queue the call returns `false` and changes
nothing. -/
theorem ringB_overrun_drop_newest_witness :
    fullAsyncLogger.logQueue.full = true ∧
    fullAsyncLogger.logTickerData TickerData.default = (false, fullAsyncLogger) := by
  exact ⟨by decide,
    (ringB_overrun_drop_newest fullAsyncLogger TickerData.default rfl (by decide)).1⟩

/-- Claim C3 (counterexample): a `CSVLogger` opened on a file that already
holds the header row appends the header again before its first data row — the
emptiness of the file is never consulted. -/
theorem header_rewritten_on_nonempty_file :
    ((CSVLogger.construct [csvHeaderLine]).logTickerData TickerData.default).file =
      [csvHeaderLine, csvHeaderLine, TickerData.default.toCSV] ∧
    2 ≤ ((CSVLogger.construct [csvHeaderLine]).logTickerData
          TickerData.default).file.count csvHeaderLine := by
  have hfile : ((CSVLogger.construct [csvHeaderLine]).logTickerData
      TickerData.default).file =
      [csvHeaderLine, csvHeaderLine, TickerData.default.toCSV] := by
    simp [CSVLogger.logTickerData, CSVLogger.writeHeaders, CSVLogger.construct]
  refine ⟨hfile, ?_⟩
  rw [hfile]
  show 2 ≤ List.count csvHeaderLine
    ([csvHeaderLine] ++ [csvHeaderLine] ++ [TickerData.default.toCSV])
  rw [List.count_append, List.count_append]
  have h1 : List.count csvHeaderLine [csvHeaderLine] = 1 := by
    simp [List.count_singleton]
  omega

/-- Claim C3 (amended): the file is opened in append mode and the header is
written exactly once per logger instance, immediately before that instance's
first data row, gated by the `m_headersWritten` flag alone; the prior file
content — in particular whether it is empty — is never examined. -/
theorem csv_header_once_per_instance (existing : List String) (d : TickerData)
    (ds : List TickerData) :
    (CSVLogger.construct existing).runLogs [] = CSVLogger.construct existing ∧
    (CSVLogger.construct existing).runLogs (d :: ds) =
      { file := existing ++ csvHeaderLine :: (d :: ds).map TickerData.toCSV,
        isOpen := true, headersWritten := true } := by
  have hafter : ∀ (f : List String) (rest : List TickerData),
      CSVLogger.runLogs ⟨f, true, true⟩ rest =
        ⟨f ++ rest.map TickerData.toCSV, true, true⟩ := by
    intro f rest
    induction rest generalizing f with
    | nil => simp [CSVLogger.runLogs]
    | cons e es ih =>
      show CSVLogger.runLogs (CSVLogger.logTickerData ⟨f, true, true⟩ e) es = _
      rw [show CSVLogger.logTickerData ⟨f, true, true⟩ e =
          (⟨f ++ [e.toCSV], true, true⟩ : CSVLogger) by
        simp [CSVLogger.logTickerData]]
      rw [ih]
      simp
  refine ⟨rfl, ?_⟩
  show CSVLogger.runLogs
      (CSVLogger.logTickerData (CSVLogger.construct existing) d) ds = _
  rw [show CSVLogger.logTickerData (CSVLogger.construct existing) d =
      (⟨existing ++ [csvHeaderLine] ++ [d.toCSV], true, true⟩ : CSVLogger) by
    simp [CSVLogger.logTickerData, CSVLogger.writeHeaders, CSVLogger.construct]]
  rw [hafter]
  simp


/-! ### Character-level facts about the serializers -/

theorem countChar_append (s t : String) (c : Char) :
    countChar (s ++ t) c = countChar s c + countChar t c := by
  simp [countChar, String.data_append]

theorem countChar_mk (l : List Char) (c : Char) : countChar ⟨l⟩ c = l.count c := rfl

theorem digitChar10_mem (d : ℕ) : digitChar10 d ∈ "0123456789".data := by
  unfold digitChar10
  have h : d % 10 < 10 := Nat.mod_lt _ (by norm_num)
  set m := d % 10 with hm
  interval_cases m <;> decide

theorem natDecAux_chars (fuel n : ℕ) :
    ∀ c ∈ natDecAux fuel n, c ∈ "0123456789".data := by
  induction fuel generalizing n with
  | zero => intro c hc; simp [natDecAux] at hc
  | succ fuel ih =>
    intro c hc
    unfold natDecAux at hc
    split at hc
    · rw [List.mem_singleton] at hc
      exact hc ▸ digitChar10_mem n
    · rw [List.mem_append] at hc
      rcases hc with hc | hc
      · exact ih _ c hc
      · rw [List.mem_singleton] at hc
        exact hc ▸ digitChar10_mem _

theorem natDec_count_comma (n : ℕ) : countChar (natDec n) ',' = 0 := by
  rw [natDec, countChar_mk, List.count_eq_zero]
  intro hmem
  have := natDecAux_chars (n + 1) n ',' hmem
  simp at this

theorem replicate_zero_count_comma (m : ℕ) :
    (List.replicate m '0').count ',' = 0 := by
  rw [List.count_eq_zero]
  intro hmem
  have := List.eq_of_mem_replicate hmem
  simp at this

theorem fmt8_comma_not_mem (q : ℚ) : ',' ∉ (fmt8 q).data := by
  unfold fmt8
  intro hmem
  simp only [String.data_append, List.mem_append] at hmem
  rcases hmem with ((hm | hm) | hm) | hm
  · revert hm
    split <;> decide
  · exact absurd (natDecAux_chars _ _ ',' hm) (by decide)
  · revert hm
    decide
  · rcases hm with hm | hm
    · exact absurd (List.eq_of_mem_replicate hm) (by decide)
    · exact absurd (natDecAux_chars _ _ ',' hm) (by decide)

theorem fmt8_count_comma (q : ℚ) : countChar (fmt8 q) ',' = 0 :=
  List.count_eq_zero.mpr (fmt8_comma_not_mem q)

/-- Length facts: `natDec` of a number below `10^L` has at most `L` digits. -/
theorem natDecAux_length (fuel n L : ℕ) (hL : 0 < L) (hn : n < 10 ^ L) :
    (natDecAux fuel n).length ≤ L := by
  induction fuel generalizing n L with
  | zero => simp [natDecAux]
  | succ fuel ih =>
    unfold natDecAux
    split
    · simpa using hL
    · next hge =>
      rw [List.length_append]
      have hL2 : 2 ≤ L := by
        by_contra hc
        have hL1 : L = 1 := by omega
        rw [hL1] at hn
        simp at hn
        omega
      have hdiv : n / 10 < 10 ^ (L - 1) := by
        have h10 : (10 : ℕ) ^ L = 10 ^ (L - 1) * 10 := by
          rw [← pow_succ]
          congr 1
          omega
        rw [h10] at hn
        exact Nat.div_lt_of_lt_mul (by omega)
      have := ih (n / 10) (L - 1) (by omega) hdiv
      simp only [List.length_singleton]
      omega

theorem fmt8_frac_shape (q : ℚ) :
    ∃ intPart fracPart : List Char,
      (fmt8 q).data = intPart ++ '.' :: fracPart ∧ fracPart.length = 8 := by
  unfold fmt8
  refine ⟨((if q < 0 then "-" else "") ++
      natDec ((⌊|q| * 100000000 + 1 / 2⌋).toNat / 100000000)).data,
    List.replicate
        (8 - (natDec ((⌊|q| * 100000000 + 1 / 2⌋).toNat % 100000000)).data.length) '0' ++
      (natDec ((⌊|q| * 100000000 + 1 / 2⌋).toNat % 100000000)).data, ?_, ?_⟩
  · simp [String.data_append, List.append_assoc]
  · rw [List.length_append, List.length_replicate]
    have hlt : (⌊|q| * 100000000 + 1 / 2⌋).toNat % 100000000 < 10 ^ 8 := by
      have h8 : (10 : ℕ) ^ 8 = 100000000 := by norm_num
      rw [h8]
      exact Nat.mod_lt _ (by norm_num)
    have hlen := natDecAux_length ((⌊|q| * 100000000 + 1 / 2⌋).toNat % 100000000 + 1)
      ((⌊|q| * 100000000 + 1 / 2⌋).toNat % 100000000) 8 (by norm_num) hlt
    simp only [natDec]
    omega


/-- Naive comma split of a row (the reader's view of the field structure). -/
def splitCommaList : List Char → List (List Char)
  | [] => [[]]
  | c :: cs =>
    match splitCommaList cs with
    | [] => [[c]]
    | g :: gs => if c = ',' then [] :: g :: gs else (c :: g) :: gs

/-- Comma split of a row string. -/
def splitComma (s : String) : List String :=
  (splitCommaList s.data).map fun l => ⟨l⟩

/-- A record whose transport strings contain no comma, double-quote or
newline (the spec's "safe fields"). -/
def TickerData.safeFields (d : TickerData) : Prop :=
  ∀ f ∈ d.transportFields,
    containsChar f ',' = false ∧ containsChar f '"' = false ∧
    containsChar f '\n' = false

instance (d : TickerData) : Decidable d.safeFields := by
  unfold TickerData.safeFields
  infer_instance

theorem not_mem_of_contains_false (s : String) (c : Char)
    (h : containsChar s c = false) : c ∉ s.data := by
  rw [containsChar] at h
  simp at h
  exact h

theorem countChar_eq_zero_of_contains_false (s : String) (c : Char)
    (h : containsChar s c = false) : countChar s c = 0 :=
  List.count_eq_zero.mpr (not_mem_of_contains_false s c h)

theorem escapeCSVField_of_safe (f : String) (h1 : containsChar f ',' = false)
    (h2 : containsChar f '"' = false) (h3 : containsChar f '\n' = false) :
    escapeCSVField f = f := by
  simp [escapeCSVField, h1, h2, h3]

theorem asyncRowEscape_eq (s : String) : asyncRowEscape s = s := by
  unfold asyncRowEscape
  split <;> rfl

theorem splitCommaList_ne_nil (l : List Char) : splitCommaList l ≠ [] := by
  cases l with
  | nil => simp [splitCommaList]
  | cons c cs =>
    unfold splitCommaList
    split
    · simp
    · split <;> simp

theorem splitCommaList_of_no_comma (l : List Char) (h : ',' ∉ l) :
    splitCommaList l = [l] := by
  induction l with
  | nil => rfl
  | cons c cs ih =>
    have hc : c ≠ ',' := fun hx => h (hx ▸ List.mem_cons_self c cs)
    have hcs : ',' ∉ cs := fun hx => h (List.mem_cons_of_mem c hx)
    unfold splitCommaList
    rw [ih hcs]
    simp [hc]

theorem splitCommaList_append (xs ys : List Char) (h : ',' ∉ xs) :
    splitCommaList (xs ++ ',' :: ys) = xs :: splitCommaList ys := by
  induction xs with
  | nil =>
    show splitCommaList (',' :: ys) = [] :: splitCommaList ys
    conv_lhs => rw [splitCommaList]
    rcases hg : splitCommaList ys with - | ⟨g, gs⟩
    · exact absurd hg (splitCommaList_ne_nil ys)
    · simp
  | cons x xs ih =>
    have hx : x ≠ ',' := fun hx => h (hx ▸ List.mem_cons_self x xs)
    have hxs : ',' ∉ xs := fun hm => h (List.mem_cons_of_mem x hm)
    show splitCommaList (x :: (xs ++ ',' :: ys)) = (x :: xs) :: splitCommaList ys
    conv_lhs => rw [splitCommaList]
    rw [ih hxs]
    simp [hx]

theorem string_mk_data (s : String) : (⟨s.data⟩ : String) = s := rfl


theorem countChar_comma_self : countChar "," ',' = 1 := rfl

theorem commaData : (",").data = [','] := rfl

/-- The spec's escaping test frame: `product_id = "BTC,USD"`,
`side = "buy\"sell"`. -/
def escTestRecord : TickerData :=
  { TickerData.default with type := "ticker", product_id := "BTC,USD",
                            side := "buy\"sell" }

/-- Claim C8 (divergence): the shared `escapeCSVField` helper used by
`TickerData::toCSV` and `CSVLogger` quotes and doubles exactly as claimed,
but the `escape` lambda inside `AsyncCSVLogger::formatToCSV` returns every
field verbatim, so the async row embeds the raw comma and quote; on the
spec's own test frame the async row has 19 commas instead of a quoted
`"BTC,USD"`. -/
theorem csv_escaping_divergence :
    escapeCSVField "BTC,USD" = "\"BTC,USD\"" ∧
    escapeCSVField "buy\"sell" = "\"buy\"\"sell\"" ∧
    asyncRowEscape "BTC,USD" = "BTC,USD" ∧
    asyncRowEscape "buy\"sell" = "buy\"sell" ∧
    countChar (formatToCSV escTestRecord 0) ',' = 19 := by
  refine ⟨by decide, by decide, asyncRowEscape_eq _, asyncRowEscape_eq _, ?_⟩
  rw [formatToCSV]
  simp only [asyncRowEscape_eq, countChar_append, fmt8_count_comma,
    natDec_count_comma, countChar_comma_self, escTestRecord, TickerData.default]
  decide

/-- Claim C9 (counterexample): on the all-defaults record — whose fields are
all safe — `AsyncCSVLogger::formatToCSV` emits 18 separator commas
(19 fields, the last being the `timestamp_us` column), not 17. -/
theorem formatToCSV_comma_count :
    countChar (formatToCSV TickerData.default 0) ',' = 18 ∧ (18 : ℕ) ≠ 17 := by
  refine ⟨?_, by norm_num⟩
  rw [formatToCSV]
  simp only [asyncRowEscape_eq, countChar_append, fmt8_count_comma,
    natDec_count_comma, countChar_comma_self, TickerData.default]
  decide

/-- Claim C9 (amended): for a record with safe fields, `TickerData::toCSV`
emits exactly 17 separator commas and splits into the 18 fields in header
order — the 15 transport strings then the three reals in fixed-point with
exactly eight fractional digits — while `AsyncCSVLogger::formatToCSV` appends
a 19th field (`timestamp_us`) and therefore emits 18 separator commas. -/
theorem row_field_structure (d : TickerData) (ts : ℕ) (hsafe : d.safeFields) :
    countChar d.toCSV ',' = 17 ∧
    splitComma d.toCSV =
      d.transportFields ++ [fmt8 d.price_ema, fmt8 d.mid_price_ema, fmt8 d.mid_price] ∧
    (∀ q : ℚ, ∃ intPart fracPart : List Char,
      (fmt8 q).data = intPart ++ '.' :: fracPart ∧ fracPart.length = 8) ∧
    countChar (formatToCSV d ts) ',' = 18 := by
  rw [TickerData.safeFields, TickerData.transportFields] at hsafe
  simp only [List.forall_mem_cons, List.forall_mem_nil, and_true] at hsafe
  obtain ⟨h1, h2, h3, h4, h5, h6, h7, h8, h9, h10, h11, h12, h13, h14, h15, -⟩ := hsafe
  have e1 := escapeCSVField_of_safe d.type h1.1 h1.2.1 h1.2.2
  have e2 := escapeCSVField_of_safe d.sequence h2.1 h2.2.1 h2.2.2
  have e3 := escapeCSVField_of_safe d.product_id h3.1 h3.2.1 h3.2.2
  have e4 := escapeCSVField_of_safe d.price h4.1 h4.2.1 h4.2.2
  have e5 := escapeCSVField_of_safe d.open_24h h5.1 h5.2.1 h5.2.2
  have e6 := escapeCSVField_of_safe d.volume_24h h6.1 h6.2.1 h6.2.2
  have e7 := escapeCSVField_of_safe d.low_24h h7.1 h7.2.1 h7.2.2
  have e8 := escapeCSVField_of_safe d.high_24h h8.1 h8.2.1 h8.2.2
  have e9 := escapeCSVField_of_safe d.volume_30d h9.1 h9.2.1 h9.2.2
  have e10 := escapeCSVField_of_safe d.best_bid h10.1 h10.2.1 h10.2.2
  have e11 := escapeCSVField_of_safe d.best_ask h11.1 h11.2.1 h11.2.2
  have e12 := escapeCSVField_of_safe d.side h12.1 h12.2.1 h12.2.2
  have e13 := escapeCSVField_of_safe d.time h13.1 h13.2.1 h13.2.2
  have e14 := escapeCSVField_of_safe d.trade_id h14.1 h14.2.1 h14.2.2
  have e15 := escapeCSVField_of_safe d.last_size h15.1 h15.2.1 h15.2.2
  refine ⟨?_, ?_, fmt8_frac_shape, ?_⟩
  · rw [TickerData.toCSV, e1, e2, e3, e4, e5, e6, e7, e8, e9, e10, e11, e12, e13, e14, e15]
    simp only [countChar_append, countChar_comma_self, fmt8_count_comma,
      countChar_eq_zero_of_contains_false d.type ',' h1.1,
      countChar_eq_zero_of_contains_false d.sequence ',' h2.1,
      countChar_eq_zero_of_contains_false d.product_id ',' h3.1,
      countChar_eq_zero_of_contains_false d.price ',' h4.1,
      countChar_eq_zero_of_contains_false d.open_24h ',' h5.1,
      countChar_eq_zero_of_contains_false d.volume_24h ',' h6.1,
      countChar_eq_zero_of_contains_false d.low_24h ',' h7.1,
      countChar_eq_zero_of_contains_false d.high_24h ',' h8.1,
      countChar_eq_zero_of_contains_false d.volume_30d ',' h9.1,
      countChar_eq_zero_of_contains_false d.best_bid ',' h10.1,
      countChar_eq_zero_of_contains_false d.best_ask ',' h11.1,
      countChar_eq_zero_of_contains_false d.side ',' h12.1,
      countChar_eq_zero_of_contains_false d.time ',' h13.1,
      countChar_eq_zero_of_contains_false d.trade_id ',' h14.1,
      countChar_eq_zero_of_contains_false d.last_size ',' h15.1]
  · rw [splitComma, TickerData.toCSV,
        e1, e2, e3, e4, e5, e6, e7, e8, e9, e10, e11, e12, e13, e14, e15]
    simp only [String.data_append, commaData, List.append_assoc, List.singleton_append,
      List.cons_append, List.nil_append]
    rw [splitCommaList_append _ _ (not_mem_of_contains_false d.type ',' h1.1),
        splitCommaList_append _ _ (not_mem_of_contains_false d.sequence ',' h2.1),
        splitCommaList_append _ _ (not_mem_of_contains_false d.product_id ',' h3.1),
        splitCommaList_append _ _ (not_mem_of_contains_false d.price ',' h4.1),
        splitCommaList_append _ _ (not_mem_of_contains_false d.open_24h ',' h5.1),
        splitCommaList_append _ _ (not_mem_of_contains_false d.volume_24h ',' h6.1),
        splitCommaList_append _ _ (not_mem_of_contains_false d.low_24h ',' h7.1),
        splitCommaList_append _ _ (not_mem_of_contains_false d.high_24h ',' h8.1),
        splitCommaList_append _ _ (not_mem_of_contains_false d.volume_30d ',' h9.1),
        splitCommaList_append _ _ (not_mem_of_contains_false d.best_bid ',' h10.1),
        splitCommaList_append _ _ (not_mem_of_contains_false d.best_ask ',' h11.1),
        splitCommaList_append _ _ (not_mem_of_contains_false d.side ',' h12.1),
        splitCommaList_append _ _ (not_mem_of_contains_false d.time ',' h13.1),
        splitCommaList_append _ _ (not_mem_of_contains_false d.trade_id ',' h14.1),
        splitCommaList_append _ _ (not_mem_of_contains_false d.last_size ',' h15.1),
        splitCommaList_append _ _ (fmt8_comma_not_mem d.price_ema),
        splitCommaList_append _ _ (fmt8_comma_not_mem d.mid_price_ema),
        splitCommaList_of_no_comma _ (fmt8_comma_not_mem d.mid_price)]
    simp only [List.map_cons, List.map_nil, string_mk_data, TickerData.transportFields]
    rfl
  · rw [formatToCSV]
    simp only [asyncRowEscape_eq, countChar_append, countChar_comma_self,
      fmt8_count_comma, natDec_count_comma,
      countChar_eq_zero_of_contains_false d.type ',' h1.1,
      countChar_eq_zero_of_contains_false d.sequence ',' h2.1,
      countChar_eq_zero_of_contains_false d.product_id ',' h3.1,
      countChar_eq_zero_of_contains_false d.price ',' h4.1,
      countChar_eq_zero_of_contains_false d.open_24h ',' h5.1,
      countChar_eq_zero_of_contains_false d.volume_24h ',' h6.1,
      countChar_eq_zero_of_contains_false d.low_24h ',' h7.1,
      countChar_eq_zero_of_contains_false d.high_24h ',' h8.1,
      countChar_eq_zero_of_contains_false d.volume_30d ',' h9.1,
      countChar_eq_zero_of_contains_false d.best_bid ',' h10.1,
      countChar_eq_zero_of_contains_false d.best_ask ',' h11.1,
      countChar_eq_zero_of_contains_false d.side ',' h12.1,
      countChar_eq_zero_of_contains_false d.time ',' h13.1,
      countChar_eq_zero_of_contains_false d.trade_id ',' h14.1,
      countChar_eq_zero_of_contains_false d.last_size ',' h15.1]

/-- Witness for the amended C9 on the all-defaults record. -/
theorem row_field_structure_witness :
    TickerData.default.safeFields ∧
    countChar TickerData.default.toCSV ',' = 17 ∧
    countChar (formatToCSV TickerData.default 5) ',' = 18 := by
  have h := row_field_structure TickerData.default 5 (by decide)
  exact ⟨by decide, h.1, h.2.2.2⟩

end HFT
